import Mathlib

/-!
# Verification of the ES6 DOM-collection library

A shallow embedding of `src/DOM.js` (the `DOM` class, its helpers
`parseSpaces`, `isElement`, the `privateData` WeakMap and the `cleanUp`
symbol-keyed method) together with the fragment of the browser platform the
library observably uses (node tree, attributes, class lists, inline styles,
event listener registry, `classList` token validation, `getAttribute`
null-vs-undefined results).

Nodes are identified by natural-number ids; a node handle carries its
immutable `nodeType` (1 = element, 3 = text, 9 = document).  JavaScript
values that can flow through the library's public surface are modelled by
`JSVal`; the mutable document state by `DocSt`.  Assoc-list maps use
prepend-shadowing for writes (lookup takes the first match), which is
observationally the platform's replace semantics; deletes really filter.
-/

namespace ES6DOM

/-- JavaScript values reaching the library: node handles (id, nodeType),
strings, numbers, booleans, `undefined`, `null`, function references
(tagged by id), plain objects, arrays, and `DOM` collections. -/
inductive JSVal where
  | node : Nat → Nat → JSVal
  | str : String → JSVal
  | num : Int → JSVal
  | bool : Bool → JSVal
  | undef : JSVal
  | nullv : JSVal
  | fn : Nat → JSVal
  | obj : List (String × JSVal) → JSVal
  | arr : List JSVal → JSVal
  | coll : List JSVal → JSVal

/-- `typeof v === 'string'`. -/
def JSVal.isString : JSVal → Bool
  | .str _ => true
  | _ => false

/-- `typeof v === 'function'`. -/
def JSVal.isFunction : JSVal → Bool
  | .fn _ => true
  | _ => false

/-- JavaScript truthiness (ToBoolean). -/
def jsTruthy : JSVal → Bool
  | .undef => false
  | .nullv => false
  | .bool b => b
  | .num n => n != 0
  | .str s => s != ""
  | _ => true

/-- The JavaScript `!` operator: produces a boolean value. -/
def jsNot (v : JSVal) : JSVal := .bool (!jsTruthy v)

/-- `v instanceof DOM`: only `DOM` collection objects satisfy it. -/
def instanceofDOM : JSVal → Bool
  | .coll _ => true
  | _ => false

/-- `isElement` from `DOM.js`: the value is the document
(`instanceof HTMLDocument`, nodeType 9), or a node whose `nodeType` is
3 (text) or 1 (element). -/
def isElement : JSVal → Bool
  | .node _ ty => ty == 9 || ty == 3 || ty == 1
  | _ => false

/-- Exceptions the modelled operations can raise. -/
inductive JsErr where
  | typeError
  | syntaxError
  | invalidCharacterError
deriving DecidableEq

/-- The mutable browser/document state observed by the library:
`types` maps node id to nodeType, `children` maps node id to its ordered
child ids (parent pointers are derived), `attrs`/`classes`/`styles` hold
per-node attribute, class-token and inline-style data, `listeners` the
event-listener registry, `privData` the `privateData` WeakMap keyed by
node identity, and `nextId` feeds fresh ids to `cloneNode`. -/
structure DocSt where
  types : List (Nat × Nat)
  children : List (Nat × List Nat)
  attrs : List (Nat × String × String)
  classes : List (Nat × String)
  styles : List (Nat × String × String)
  listeners : List (Nat × String × Nat)
  privData : List (Nat × List (String × JSVal))
  nextId : Nat

/-- nodeType of a node id (0 when unknown). -/
def typeOf (st : DocSt) (id : Nat) : Nat :=
  ((st.types.find? (fun e => e.1 == id)).map (fun e => e.2)).getD 0

/-- Ordered child ids of a node. -/
def childrenOf (st : DocSt) (id : Nat) : List Nat :=
  ((st.children.find? (fun e => e.1 == id)).map (fun e => e.2)).getD []

/-- `node.parentNode`: the unique id whose child list contains `c`. -/
def parentOf (st : DocSt) (c : Nat) : Option Nat :=
  (st.children.find? (fun e => e.2.contains c)).map (fun e => e.1)

/-- `node.parentElement`: the parent, but only when it is an Element
(nodeType 1); a document parent yields `null`. -/
def parentElement (st : DocSt) (c : Nat) : Option Nat :=
  match parentOf st c with
  | some p => if typeOf st p == 1 then some p else none
  | none => none

/-- `parent.removeChild(c)`: delete `c` from `p`'s child list. -/
def removeChildSt (st : DocSt) (p c : Nat) : DocSt :=
  { st with children :=
      st.children.map (fun e => if e.1 == p then (e.1, e.2.filter (fun x => x != c)) else e) }

/-- `parent.appendChild(c)`: detach `c` from its current parent, then
append it to `p`'s child list. -/
def appendChildSt (st : DocSt) (p c : Nat) : DocSt :=
  let st' := match parentOf st c with
    | some q => removeChildSt st q c
    | none => st
  if st'.children.any (fun e => e.1 == p) then
    { st' with children :=
        st'.children.map (fun e => if e.1 == p then (e.1, e.2 ++ [c]) else e) }
  else
    { st' with children := (p, [c]) :: st'.children }

/-- `node.isConnected`: walking parents (with fuel) reaches a document. -/
def inDocument : Nat → DocSt → Nat → Bool
  | 0, _, _ => false
  | fuel+1, st, id =>
    typeOf st id == 9 ||
      (match parentOf st id with
       | some p => inDocument fuel st p
       | none => false)

/-- Character-level model of JavaScript `String.prototype.trim`. -/
def jsTrim (s : String) : String :=
  String.mk (((s.data.dropWhile Char.isWhitespace).reverse.dropWhile Char.isWhitespace).reverse)

/-- Worker for `str.split(/\s+/)`: accumulate the current token (reversed),
emit it at each whitespace run (tracking whether we are inside a run), and
emit the pending token at the end.  `''.split(/\s+/)` is `['']`. -/
def splitWsAux : List Char → List Char → Bool → List String
  | [], cur, _ => [String.mk cur.reverse]
  | c :: cs, cur, inWs =>
    if c.isWhitespace then
      if inWs then splitWsAux cs cur true
      else String.mk cur.reverse :: splitWsAux cs [] true
    else splitWsAux cs (c :: cur) false

/-- JavaScript `str.split(/\s+/)`. -/
def jsSplitWs (s : String) : List String := splitWsAux s.data [] false

/-- `parseSpaces` from `DOM.js`: `str.trim().split(/\s+/)`. -/
def parseSpaces (str : String) : List String := jsSplitWs (jsTrim str)

mutual

/-- `DOM.prototype.add`: push the value when `isElement` accepts it, else
recurse into arrays and `DOM` collections, else drop it silently. -/
def add : List JSVal → JSVal → List JSVal
  | self, v =>
    if isElement v then self ++ [v]
    else
      match v with
      | .arr xs => addList self xs
      | .coll xs => addList self xs
      | _ => self

/-- `element.forEach(_element => this.add(_element))` over a JS array or a
`DOM` collection (collections are arrays, so `Array.isArray` also routes
them here; both branches of the source behave identically). -/
def addList : List JSVal → List JSVal → List JSVal
  | self, [] => self
  | self, x :: xs => addList (add self x) xs

end

/-- `DOM.prototype.get`: guard `index > this.length` returns `undefined`;
otherwise `this[index]`, which is `undefined` out of range. -/
def getOp (self : List JSVal) (index : Nat) : JSVal :=
  if index > self.length then JSVal.undef
  else self.getD index JSVal.undef

/-- Does node `id` carry class token `c`? -/
def classHas (st : DocSt) (id : Nat) (c : String) : Bool :=
  st.classes.any (fun e => e.1 == id && e.2 == c)

/-- `element.classList.add(tok)`: the platform throws a SyntaxError
DOMException on the empty token and an InvalidCharacterError on tokens
containing whitespace; otherwise it appends the token unless present. -/
def classListAdd (st : DocSt) (id : Nat) (tok : String) : Except JsErr DocSt :=
  if tok == "" then .error .syntaxError
  else if tok.data.any Char.isWhitespace then .error .invalidCharacterError
  else .ok (if classHas st id tok then st
            else { st with classes := st.classes ++ [(id, tok)] })

/-- `element.classList.remove(tok)`: same token validation, then delete. -/
def classListRemove (st : DocSt) (id : Nat) (tok : String) : Except JsErr DocSt :=
  if tok == "" then .error .syntaxError
  else if tok.data.any Char.isWhitespace then .error .invalidCharacterError
  else .ok { st with classes := st.classes.filter (fun e => !(e.1 == id && e.2 == tok)) }

/-- `DOM.prototype.addClass`: parse the tokens once, then for each member
add every token; an exception from `classList.add` propagates out of the
iteration.  Returns `this`. -/
def addClassOp (st : DocSt) (self : List JSVal) (classes : String) :
    Except JsErr (DocSt × JSVal) := do
  let toks := parseSpaces classes
  let st ← self.foldlM
    (fun s m =>
      match m with
      | .node id _ => toks.foldlM (fun s' t => classListAdd s' id t) s
      | _ => pure s) st
  pure (st, .coll self)

/-- `DOM.prototype.removeClass`: the mirror of `addClass`. -/
def removeClassOp (st : DocSt) (self : List JSVal) (classes : String) :
    Except JsErr (DocSt × JSVal) := do
  let toks := parseSpaces classes
  let st ← self.foldlM
    (fun s m =>
      match m with
      | .node id _ => toks.foldlM (fun s' t => classListRemove s' id t) s
      | _ => pure s) st
  pure (st, .coll self)

/-- `element.getAttribute(key)`: first (most recent) matching entry. -/
def lookupAttr (st : DocSt) (id : Nat) (k : String) : Option String :=
  (st.attrs.find? (fun e => e.1 == id && e.2.1 == k)).map (fun e => e.2.2)

/-- `element.setAttribute(key, value)`: a fresh entry shadows older ones. -/
def setAttrSt (st : DocSt) (id : Nat) (k v : String) : DocSt :=
  { st with attrs := (id, k, v) :: st.attrs }

/-- `DOM.prototype.attr`.  Get mode (`typeof value === 'undefined'`):
`undefined` unless the collection has exactly one member, else
`getAttribute` (a string, or `null` when absent).  Set mode: sets the
attribute on every member; the branch has no return statement, so the
call evaluates to `undefined`. -/
def attrOp (st : DocSt) (self : List JSVal) (key : String) (value : Option String) :
    DocSt × JSVal :=
  match value with
  | none =>
    if self.length != 1 then (st, .undef)
    else
      match getOp self 0 with
      | .node id _ =>
        (st, match lookupAttr st id key with
             | some s => .str s
             | none => .nullv)
      | _ => (st, .undef)
  | some v =>
    (self.foldl
      (fun s m =>
        match m with
        | .node id _ => setAttrSt s id key v
        | _ => s) st, .undef)

/-- `privateData.get(element)` (by node identity). -/
def lookupPriv (st : DocSt) (id : Nat) : Option (List (String × JSVal)) :=
  (st.privData.find? (fun e => e.1 == id)).map (fun e => e.2)

/-- The lazy `privateData.set(element, Object.create(null))` step. -/
def ensurePriv (st : DocSt) (id : Nat) : DocSt :=
  if (lookupPriv st id).isNone then { st with privData := (id, []) :: st.privData }
  else st

/-- The record held for a node (empty when absent). -/
def privRecordOf (st : DocSt) (id : Nat) : List (String × JSVal) :=
  (lookupPriv st id).getD []

/-- `let data = $(element).data(); data[key] = value;` — fetch or create the
node's record and assign through the shared reference; modelled as storing
the updated record (new entry shadows the old one). -/
def setPrivKV (st : DocSt) (id : Nat) (k : String) (v : JSVal) : DocSt :=
  { st with privData := (id, (k, v) :: privRecordOf st id) :: st.privData }

/-- `DOM.prototype.data`.  Get mode (`typeof value === 'undefined'`):
`undefined` unless exactly one member; lazily create the member's record,
then return `data[key]` (or the whole record when `key` is omitted).
Set mode: for every member, fetch-or-create its record and assign;
returns `this`. -/
def dataOp (st : DocSt) (self : List JSVal) (key : Option String) (value : Option JSVal) :
    DocSt × JSVal :=
  match value with
  | none =>
    if self.length != 1 then (st, .undef)
    else
      match getOp self 0 with
      | .node id _ =>
        let st' := ensurePriv st id
        let data := privRecordOf st' id
        match key with
        | some k => (st', ((data.find? (fun e => e.1 == k)).map (fun e => e.2)).getD .undef)
        | none => (st', .obj data)
      | _ => (st, .undef)
  | some v =>
    (self.foldl
      (fun s m =>
        match m with
        | .node id _ => setPrivKV s id (key.getD "undefined") v
        | _ => s) st, .coll self)

/-- `element.addEventListener(ev, cb, false)`: the platform ignores an
exact duplicate registration. -/
def addListenerSt (st : DocSt) (id : Nat) (ev : String) (f : Nat) : DocSt :=
  if st.listeners.contains (id, ev, f) then st
  else { st with listeners := st.listeners ++ [(id, ev, f)] }

/-- `element.removeEventListener(ev, cb, false)`. -/
def removeListenerSt (st : DocSt) (id : Nat) (ev : String) (f : Nat) : DocSt :=
  { st with listeners := st.listeners.filter (fun e => !(e = (id, ev, f))) }

/-- `DOM.prototype.on`: a non-function callback or a falsy events string is
a silent no-op; otherwise each parsed event name is bound on every member.
Returns `this` on every path. -/
def onOp (st : DocSt) (self : List JSVal) (events : String) (callback : JSVal) :
    DocSt × JSVal :=
  match callback with
  | .fn f =>
    if events == "" then (st, .coll self)
    else
      let evs := parseSpaces events
      (self.foldl
        (fun s m =>
          match m with
          | .node id _ => evs.foldl (fun s' ev => addListenerSt s' id ev f) s
          | _ => s) st, .coll self)
  | _ => (st, .coll self)

/-- `DOM.prototype.off`: the mirror of `on`. -/
def offOp (st : DocSt) (self : List JSVal) (events : String) (callback : JSVal) :
    DocSt × JSVal :=
  match callback with
  | .fn f =>
    if events == "" then (st, .coll self)
    else
      let evs := parseSpaces events
      (self.foldl
        (fun s m =>
          match m with
          | .node id _ => evs.foldl (fun s' ev => removeListenerSt s' id ev f) s
          | _ => s) st, .coll self)
  | _ => (st, .coll self)

/-- The state effect of `DOM.prototype.detach`: for each member with a
non-null `parentElement`, `parentElement.removeChild(element)`. -/
def detachSt (st : DocSt) (self : List JSVal) : DocSt :=
  self.foldl
    (fun s m =>
      match m with
      | .node id _ =>
        match parentElement s id with
        | some p => removeChildSt s p id
        | none => s
      | _ => s) st

/-- `DOM.prototype.detach`: returns `this`. -/
def detachOp (st : DocSt) (self : List JSVal) : DocSt × JSVal :=
  (detachSt st self, .coll self)

/-- JavaScript ToString, as used for a computed property key
(`element.style[rule]`). -/
def jsToStr : JSVal → String
  | .str s => s
  | .num n => toString n
  | .bool b => if b then "true" else "false"
  | .undef => "undefined"
  | .nullv => "null"
  | _ => "[object]"

/-- `Object.keys(v)` paired with the property values, for the values the
`css` recursion can meet: own enumerable keys of plain objects, index keys
of strings and arrays, nothing for primitives. -/
def objKeyVals : JSVal → List (String × JSVal)
  | .obj kvs => kvs
  | .str s => (List.range s.length).zip (s.data.map (fun c => JSVal.str (String.mk [c])))
      |>.map (fun e => (toString e.1, e.2))
  | .arr xs => (List.range xs.length).zip xs |>.map (fun e => (toString e.1, e.2))
  | .coll xs => (List.range xs.length).zip xs |>.map (fun e => (toString e.1, e.2))
  | _ => []

/-- `element.style[rule] = value`: a fresh entry shadows older ones. -/
def setStyleSt (st : DocSt) (id : Nat) (rule : String) (v : String) : DocSt :=
  { st with styles := (id, rule, v) :: st.styles }

/-- `DOM.prototype.css`: when `value` is undefined and `rule` truthy,
recurse once per key of `rule` (each inner call has a defined value and
lands in the set branch); otherwise set `style[rule] = value` on every
member.  Returns `this`. -/
def cssOp (st : DocSt) (self : List JSVal) (rule : JSVal) (value : Option JSVal) :
    DocSt × JSVal :=
  if value.isNone && jsTruthy rule then
    ((objKeyVals rule).foldl
      (fun s kv => (cssOp s self (.str kv.1) (some kv.2)).1) st, .coll self)
  else
    (self.foldl
      (fun s m =>
        match m with
        | .node id _ => setStyleSt s id (jsToStr rule) (jsToStr (value.getD .undef))
        | _ => s) st, .coll self)
termination_by if value.isSome then 0 else 1
decreasing_by simp_all

/-- `element.cloneNode(true)`: allocate a fresh id, copy nodeType,
attributes, class tokens and inline styles, then deep-clone the children
in order.  Listeners and `privateData` entries are not copied.  Fuel
bounds the tree depth (adequate fuel never runs out on finite trees). -/
def cloneTree : Nat → DocSt → Nat → DocSt × Nat
  | 0, st, _ => (st, st.nextId)
  | fuel+1, st, src =>
    let newId := st.nextId
    let kids := childrenOf st src
    let st1 : DocSt :=
      { st with
        nextId := newId + 1
        types := (newId, typeOf st src) :: st.types
        attrs := (st.attrs.filter (fun e => e.1 == src)).map (fun e => (newId, e.2)) ++ st.attrs
        classes := (st.classes.filter (fun e => e.1 == src)).map (fun e => (newId, e.2)) ++ st.classes
        styles := (st.styles.filter (fun e => e.1 == src)).map (fun e => (newId, e.2)) ++ st.styles }
    let res := kids.foldl
      (fun acc c =>
        let r := cloneTree fuel acc.1 c
        (r.1, acc.2 ++ [r.2])) (st1, ([] : List Nat))
    ({ res.1 with children := (newId, res.2) :: res.1.children }, newId)

/-- `DOM.prototype.clone`: a new collection of deep clones of the members
(each clone passes `isElement`, so `add` appends it). -/
def cloneColl (fuel : Nat) (st : DocSt) (xs : List JSVal) : DocSt × List JSVal :=
  xs.foldl
    (fun acc m =>
      match m with
      | .node id ty =>
        let r := cloneTree fuel acc.1 id
        (r.1, acc.2 ++ [JSVal.node r.2 ty])
      | _ => acc) (st, [])

/-- `$ (v)`: an existing collection is returned as is; anything else goes
through `new DOM(v)`, whose non-string path is `this.add(v)`. -/
def dollarWrap (v : JSVal) : List JSVal :=
  match v with
  | .coll xs => xs
  | _ => add [] v

/-- `DOM.prototype.append`.  `let element;` then: a string argument sets
`element = this` and replaces `html` by the parsed nodes (`toElement`;
the platform parse result is passed in as `parsed`, already detached);
otherwise the guard `!html instanceof DOM` parses as
`(!html) instanceof DOM`, a boolean is never an instance, so the branch
that would set `element = $(this.get(0))` is dead and `element` stays
`undefined` — `element.each(...)` then raises a TypeError.  In the live
branch each member of `element` receives the `html` collection (clones of
it when `element` has more than one member). -/
def appendOp (fuel : Nat) (st : DocSt) (self : List JSVal) (html : JSVal)
    (parsed : List JSVal) : Except JsErr (DocSt × JSVal) :=
  let eh : Option (List JSVal) × JSVal :=
    if html.isString then (some self, .coll parsed)
    else if instanceofDOM (jsNot html) then
      (some (dollarWrap (getOp self 0)), .coll (dollarWrap html))
    else (none, html)
  match eh.1 with
  | none => .error .typeError
  | some element =>
    let htmlColl : List JSVal :=
      match eh.2 with
      | .coll xs => xs
      | _ => []
    let st := element.foldl
      (fun s m =>
        let ap : DocSt × List JSVal :=
          if element.length > 1 then cloneColl fuel s htmlColl else (s, htmlColl)
        ap.2.foldl
          (fun s' a =>
            match m, a with
            | .node pid _, .node cid _ => appendChildSt s' pid cid
            | _, _ => s') ap.1) st
    .ok (st, .coll self)

/-- Total number of parent-child edges; `totalEdges st + 1` bounds the
depth of any well-formed tree in `st`, so it is adequate fuel for a
descendant traversal. -/
def totalEdges (st : DocSt) : Nat :=
  st.children.foldl (fun n e => n + e.2.length) 0

/-- `element.querySelectorAll('*')`: all descendant elements (nodeType 1)
of `id`, in tree (preorder document) order. -/
def descElems : Nat → DocSt → Nat → List Nat
  | 0, _, _ => []
  | fuel+1, st, id =>
    (childrenOf st id).foldl
      (fun acc c =>
        acc ++ (if typeOf st c == 1 then [c] else []) ++ descElems fuel st c) []

/-- `DOM.prototype.find('*')`: merge every member's `querySelectorAll('*')`
results (element handles, all of nodeType 1) into a fresh collection. -/
def findAllStar (st : DocSt) (self : List JSVal) : List JSVal :=
  self.foldl
    (fun acc m =>
      match m with
      | .node id _ =>
        acc ++ (descElems (totalEdges st + 1) st id).map (fun c => JSVal.node c 1)
      | _ => acc) []

/-- The symbol-keyed `[cleanUp]` method: `privateData.delete(element)` for
every member (`delete` on a non-object key is a harmless no-op). -/
def cleanUpSt (st : DocSt) (self : List JSVal) : DocSt :=
  self.foldl
    (fun s m =>
      match m with
      | .node id _ => { s with privData := s.privData.filter (fun e => !(e.1 == id)) }
      | _ => s) st

/-- `element.remove()` (ChildNode.remove): detach from `parentNode`
whatever its type; a no-op when already detached. -/
def elemRemoveNative (st : DocSt) (m : JSVal) : DocSt :=
  match m with
  | .node id _ =>
    match parentOf st id with
    | some p => removeChildSt st p id
    | none => st
  | _ => st

/-- `DOM.prototype.remove`: `find('*')` the descendants and recursively
remove them when there are any, then `detach()`, then `[cleanUp]()`, then
`element.remove()` per member, then truncate `this.length` to 0 and
return `this`.  Fuel bounds the recursion depth (the descendant
collection is strictly deeper each time, so adequate fuel never runs
out). -/
def removeOp : Nat → DocSt → List JSVal → DocSt × JSVal
  | 0, st, self => (st, .coll self)
  | fuel+1, st, self =>
    let children := findAllStar st self
    let st1 := if children.length != 0 then (removeOp fuel st children).1 else st
    let st2 := detachSt st1 self
    let st3 := cleanUpSt st2 self
    let st4 := self.foldl elemRemoveNative st3
    (st4, .coll [])

/-- The concrete document of the removal scenario: document 0 contains
element 1, which contains element 2, which contains element 3 (so member 1
has the two descendant elements 2 and 3), and all three elements carry a
private-data record. -/
def c1Doc : DocSt :=
  { types := [(0, 9), (1, 1), (2, 1), (3, 1)]
    children := [(0, [1]), (1, [2]), (2, [3])]
    attrs := [], classes := [], styles := [], listeners := []
    privData := [(1, [("a", .num 1)]), (2, [("b", .num 2)]), (3, [("c", .num 3)])]
    nextId := 4 }

/-! ## Helper lemmas -/

theorem add_of_isElement (self : List JSVal) (v : JSVal) (h : isElement v = true) :
    add self v = self ++ [v] := by
  simp only [add.eq_def]
  rw [if_pos h]

theorem add_arr (self : List JSVal) (xs : List JSVal) :
    add self (JSVal.arr xs) = addList self xs := by
  simp only [add.eq_def]
  rfl

theorem add_coll (self : List JSVal) (xs : List JSVal) :
    add self (JSVal.coll xs) = addList self xs := by
  simp only [add.eq_def]
  rfl

theorem add_of_dropped (self : List JSVal) (x : JSVal) (hx : isElement x = false)
    (hxa : ∀ ys, x ≠ JSVal.arr ys) (hxc : ∀ ys, x ≠ JSVal.coll ys) :
    add self x = self := by
  cases x with
  | arr ys => exact absurd rfl (hxa ys)
  | coll ys => exact absurd rfl (hxc ys)
  | node a b =>
    simp only [add.eq_def]
    rw [if_neg (by simp [hx])]
  | str s => simp only [add.eq_def]; rfl
  | num n => simp only [add.eq_def]; rfl
  | bool b => simp only [add.eq_def]; rfl
  | undef => simp only [add.eq_def]; rfl
  | nullv => simp only [add.eq_def]; rfl
  | fn f => simp only [add.eq_def]; rfl
  | obj kvs => simp only [add.eq_def]; rfl

theorem addList_cons (self : List JSVal) (x : JSVal) (xs : List JSVal) :
    addList self (x :: xs) = addList (add self x) xs := rfl

theorem addList_nil (self : List JSVal) : addList self [] = self := rfl

theorem add_inv_aux : ∀ n : Nat,
    (∀ (v : JSVal) (self : List JSVal), sizeOf v ≤ n →
      (∀ m ∈ self, isElement m = true) → ∀ m ∈ add self v, isElement m = true) ∧
    (∀ (xs : List JSVal) (self : List JSVal), sizeOf xs ≤ n →
      (∀ m ∈ self, isElement m = true) → ∀ m ∈ addList self xs, isElement m = true) := by
  intro n
  induction n with
  | zero =>
    constructor
    · intro v self hsz
      exact absurd hsz (by cases v <;> simp)
    · intro xs self hsz
      exact absurd hsz (by cases xs <;> simp)
  | succ n ih =>
    constructor
    · intro v self hsz hinv m hm
      by_cases he : isElement v = true
      · rw [add_of_isElement self v he] at hm
        rcases List.mem_append.mp hm with h | h
        · exact hinv m h
        · rw [List.mem_singleton.mp h]
          exact he
      · cases v with
        | arr ys =>
          rw [add_arr] at hm
          exact ih.2 ys self (by simp at hsz ⊢; omega) hinv m hm
        | coll ys =>
          rw [add_coll] at hm
          exact ih.2 ys self (by simp at hsz ⊢; omega) hinv m hm
        | node a b =>
          rw [add_of_dropped self _ (by simp only [Bool.not_eq_true] at he; exact he)
            (fun ys hh => JSVal.noConfusion hh) (fun ys hh => JSVal.noConfusion hh)] at hm
          exact hinv m hm
        | str s =>
          rw [add_of_dropped self (JSVal.str s) rfl
            (fun ys hh => JSVal.noConfusion hh) (fun ys hh => JSVal.noConfusion hh)] at hm
          exact hinv m hm
        | num k =>
          rw [add_of_dropped self (JSVal.num k) rfl
            (fun ys hh => JSVal.noConfusion hh) (fun ys hh => JSVal.noConfusion hh)] at hm
          exact hinv m hm
        | bool b =>
          rw [add_of_dropped self (JSVal.bool b) rfl
            (fun ys hh => JSVal.noConfusion hh) (fun ys hh => JSVal.noConfusion hh)] at hm
          exact hinv m hm
        | undef =>
          rw [add_of_dropped self JSVal.undef rfl
            (fun ys hh => JSVal.noConfusion hh) (fun ys hh => JSVal.noConfusion hh)] at hm
          exact hinv m hm
        | nullv =>
          rw [add_of_dropped self JSVal.nullv rfl
            (fun ys hh => JSVal.noConfusion hh) (fun ys hh => JSVal.noConfusion hh)] at hm
          exact hinv m hm
        | fn f =>
          rw [add_of_dropped self (JSVal.fn f) rfl
            (fun ys hh => JSVal.noConfusion hh) (fun ys hh => JSVal.noConfusion hh)] at hm
          exact hinv m hm
        | obj kvs =>
          rw [add_of_dropped self (JSVal.obj kvs) rfl
            (fun ys hh => JSVal.noConfusion hh) (fun ys hh => JSVal.noConfusion hh)] at hm
          exact hinv m hm
    · intro xs self hsz hinv m hm
      cases xs with
      | nil =>
        rw [addList_nil] at hm
        exact hinv m hm
      | cons x rest =>
        rw [addList_cons] at hm
        have hx : sizeOf x ≤ n := by simp at hsz; omega
        have hrest : sizeOf rest ≤ n := by simp at hsz; omega
        exact ih.2 rest (add self x) hrest (ih.1 x self hx hinv) m hm

/-! ## Claim theorems -/

/-- C1: `remove()` recursively removes descendant elements first, then
detaches the members, purges their private-data entries and removes the
nodes, then truncates the collection.  In the concrete scenario — a
collection holding element 1, which has the two descendant elements 2 and
3, all three carrying private data — all three start connected with data
and end up absent from the document, the returned collection is empty,
and none of the three retains a private-data entry. -/
theorem claim1_remove_scenario :
    inDocument 10 c1Doc 1 = true ∧ inDocument 10 c1Doc 2 = true ∧
    inDocument 10 c1Doc 3 = true ∧
    (lookupPriv c1Doc 1).isSome = true ∧ (lookupPriv c1Doc 2).isSome = true ∧
    (lookupPriv c1Doc 3).isSome = true ∧
    inDocument 10 (removeOp 10 c1Doc [JSVal.node 1 1]).1 1 = false ∧
    inDocument 10 (removeOp 10 c1Doc [JSVal.node 1 1]).1 2 = false ∧
    inDocument 10 (removeOp 10 c1Doc [JSVal.node 1 1]).1 3 = false ∧
    (removeOp 10 c1Doc [JSVal.node 1 1]).2 = JSVal.coll [] ∧
    lookupPriv (removeOp 10 c1Doc [JSVal.node 1 1]).1 1 = none ∧
    lookupPriv (removeOp 10 c1Doc [JSVal.node 1 1]).1 2 = none ∧
    lookupPriv (removeOp 10 c1Doc [JSVal.node 1 1]).1 3 = none :=
  ⟨rfl, rfl, rfl, rfl, rfl, rfl, rfl, rfl, rfl, rfl, rfl, rfl, rfl⟩

/-- C2: contrary to the claim, `append` on a non-string argument never
appends into the first member; because `!html instanceof DOM` parses as
`(!html) instanceof DOM` (always false), the `element` variable is never
assigned and `element.each(...)` raises a TypeError for every non-string
argument. -/
theorem claim2_append_nonstring_throws (fuel : Nat) (st : DocSt) (self : List JSVal)
    (html : JSVal) (parsed : List JSVal) (h : html.isString = false) :
    appendOp fuel st self html parsed = Except.error JsErr.typeError := by
  unfold appendOp
  have hg : instanceofDOM (jsNot html) = false := rfl
  simp [h, hg]

/-- C2 witness: appending an element node to a one-member collection
raises the TypeError. -/
theorem claim2_append_nonstring_throws_witness :
    appendOp 1 c1Doc [JSVal.node 1 1] (JSVal.node 2 1) [] = Except.error JsErr.typeError :=
  claim2_append_nonstring_throws 1 c1Doc [JSVal.node 1 1] (JSVal.node 2 1) [] rfl

/-- C4: if every member of a collection satisfies the element-or-document
predicate `isElement`, every member still does after `add` of any value,
and an input that fails the predicate and is neither an array nor a
collection is silently dropped. -/
theorem claim4_add_invariant (self : List JSVal) (v x : JSVal)
    (hinv : ∀ m ∈ self, isElement m = true)
    (hx : isElement x = false) (hxa : ∀ ys, x ≠ JSVal.arr ys)
    (hxc : ∀ ys, x ≠ JSVal.coll ys) :
    (∀ m ∈ add self v, isElement m = true) ∧ add self x = self :=
  ⟨(add_inv_aux (sizeOf v)).1 v self le_rfl hinv, add_of_dropped self x hx hxa hxc⟩

/-- C4 witness: adding an array holding an element and a number to a
collection holding the document keeps every member an element. -/
theorem claim4_add_invariant_witness : isElement (JSVal.node 2 1) = true :=
  (claim4_add_invariant [JSVal.node 1 9] (JSVal.arr [JSVal.node 2 1, JSVal.num 5])
      (JSVal.num 5)
      (by intro m hm; rw [List.mem_singleton.mp hm]; rfl)
      rfl (fun ys hh => JSVal.noConfusion hh) (fun ys hh => JSVal.noConfusion hh)).1
    (JSVal.node 2 1)
    (show JSVal.node 2 1 ∈ [JSVal.node 1 9, JSVal.node 2 1] from
      List.mem_cons_of_mem _ (List.mem_cons_self _ _))

/-- C8: `add` of a valid element grows the length by exactly one and
`get(length - 1)` returns that element; `add` of a non-element,
non-array, non-collection value leaves the collection unchanged (and, the
operation being total, raises no error). -/
theorem claim8_add_length (self : List JSVal) (e x : JSVal)
    (he : isElement e = true) (hx : isElement x = false)
    (hxa : ∀ ys, x ≠ JSVal.arr ys) (hxc : ∀ ys, x ≠ JSVal.coll ys) :
    (add self e).length = self.length + 1 ∧
    getOp (add self e) ((add self e).length - 1) = e ∧
    add self x = self := by
  have h1 := add_of_isElement self e he
  refine ⟨by rw [h1]; simp, ?_, add_of_dropped self x hx hxa hxc⟩
  rw [h1]
  have hlen : (self ++ [e]).length = self.length + 1 := by simp
  rw [hlen]
  unfold getOp
  rw [if_neg (by simp)]
  simp [List.getD_eq_getElem?_getD, List.getElem?_concat_length]

/-- C8 witness: adding a text node to a one-element collection, and a
string to the same collection. -/
theorem claim8_add_length_witness :
    (add [JSVal.node 1 1] (JSVal.node 2 3)).length = 2 ∧
    getOp (add [JSVal.node 1 1] (JSVal.node 2 3)) 1 = JSVal.node 2 3 ∧
    add [JSVal.node 1 1] (JSVal.str "nope") = [JSVal.node 1 1] :=
  claim8_add_length [JSVal.node 1 1] (JSVal.node 2 3) (JSVal.str "nope") rfl rfl
    (fun _ hh => JSVal.noConfusion hh) (fun _ hh => JSVal.noConfusion hh)

/-- C7: `get(index)` returns the member at `index` whenever
`0 <= index <= length - 1`, and returns `undefined` (without throwing —
the operation is total) exactly when `index >= length`; in particular
`index = length` is already out of bounds.  The invariant hypothesis
rules out collections that literally store `undefined`, which the API
cannot produce. -/
theorem claim7_get_bounds (self : List JSVal) (i : Nat)
    (hinv : ∀ m ∈ self, isElement m = true) :
    (∀ h : i < self.length, getOp self i = self.get ⟨i, h⟩) ∧
    (getOp self i = JSVal.undef ↔ self.length ≤ i) := by
  constructor
  · intro h
    unfold getOp
    rw [if_neg (by omega)]
    simp [List.getD_eq_getElem?_getD, List.getElem?_eq_getElem h]
  · constructor
    · intro hu
      by_contra hlt
      push_neg at hlt
      unfold getOp at hu
      rw [if_neg (by omega)] at hu
      rw [List.getD_eq_getElem?_getD, List.getElem?_eq_getElem hlt] at hu
      simp at hu
      have hel := hinv _ (List.getElem_mem hlt)
      rw [hu] at hel
      simp [isElement] at hel
    · intro hle
      unfold getOp
      by_cases hgt : i > self.length
      · rw [if_pos hgt]
      · rw [if_neg hgt]
        simp [List.getD_eq_getElem?_getD, List.getElem?_eq_none hle]

/-- C7 witness: index 0 of a one-member collection is the member; index 1
(equal to the length) yields `undefined`. -/
theorem claim7_get_bounds_witness :
    getOp [JSVal.node 1 1] 0 = JSVal.node 1 1 ∧
    (getOp [JSVal.node 1 1] 1 = JSVal.undef ↔ 1 ≤ 1) :=
  ⟨(claim7_get_bounds [JSVal.node 1 1] 0
      (by intro m hm; rw [List.mem_singleton.mp hm]; rfl)).1 (by decide),
   (claim7_get_bounds [JSVal.node 1 1] 1
      (by intro m hm; rw [List.mem_singleton.mp hm]; rfl)).2⟩

/-- C6 counterexample: contrary to the claim, the empty string does not
yield an empty token list — `''.trim().split(/\s+/)` is `['']` — and
`addClass('')` on a non-empty collection raises a SyntaxError from
`classList.add('')` instead of being a no-op. -/
theorem claim6_counterexample :
    parseSpaces "" = [""] ∧
    addClassOp c1Doc [JSVal.node 1 1] "" = Except.error JsErr.syntaxError :=
  ⟨rfl, rfl⟩

/-- C6 as amended: an empty or whitespace-only string yields the
one-token list `['']`, so `addClass`/`removeClass` raise a SyntaxError on
every non-empty collection and are a no-op only on an empty collection. -/
theorem claim6_amended (s : String) (st : DocSt)
    (rest : List JSVal) (id ty : Nat) (h : jsTrim s = "") :
    parseSpaces s = [""] ∧
    addClassOp st (JSVal.node id ty :: rest) s = Except.error JsErr.syntaxError ∧
    removeClassOp st (JSVal.node id ty :: rest) s = Except.error JsErr.syntaxError ∧
    addClassOp st [] s = Except.ok (st, JSVal.coll []) ∧
    removeClassOp st [] s = Except.ok (st, JSVal.coll []) := by
  have hp : parseSpaces s = [""] := by
    unfold parseSpaces jsSplitWs
    rw [h]
    rfl
  refine ⟨hp, ?_, ?_, ?_, ?_⟩
  · unfold addClassOp
    rw [hp]
    rfl
  · unfold removeClassOp
    rw [hp]
    rfl
  · unfold addClassOp
    rw [hp]
    rfl
  · unfold removeClassOp
    rw [hp]
    rfl

/-- Setting an attribute on every member preserves an existing
`(id, key) = value` binding when every write stores the same value. -/
theorem lookupAttr_setfold_pres (members : List JSVal) (st : DocSt) (id : Nat) (k v : String)
    (h : lookupAttr st id k = some v) :
    lookupAttr (members.foldl (fun s m =>
      match m with
      | JSVal.node i _ => setAttrSt s i k v
      | _ => s) st) id k = some v := by
  induction members generalizing st with
  | nil => exact h
  | cons m rest ih =>
    rw [List.foldl_cons]
    apply ih
    cases m with
    | node i ty =>
      show lookupAttr (setAttrSt st i k v) id k = some v
      unfold lookupAttr setAttrSt
      by_cases hi : i = id
      · subst hi
        simp [List.find?]
      · have hp : ((i, k, v).1 == id && ((i, k, v).2.1 == k)) = false := by simp [hi]
        simp only [List.find?, hp]
        exact h
    | str s => exact h
    | num n => exact h
    | bool b => exact h
    | undef => exact h
    | nullv => exact h
    | fn f => exact h
    | obj kvs => exact h
    | arr xs => exact h
    | coll xs => exact h

/-- After `setAttribute(k, v)` ran on every member, any member node reads
back `v` at `k`. -/
theorem lookupAttr_setfold (members : List JSVal) (st : DocSt) (id ty : Nat) (k v : String)
    (hm : JSVal.node id ty ∈ members) :
    lookupAttr (members.foldl (fun s m =>
      match m with
      | JSVal.node i _ => setAttrSt s i k v
      | _ => s) st) id k = some v := by
  induction members generalizing st with
  | nil => cases hm
  | cons m rest ih =>
    rw [List.foldl_cons]
    rcases List.mem_cons.mp hm with heq | hrest
    · subst heq
      apply lookupAttr_setfold_pres
      show lookupAttr (setAttrSt st id k v) id k = some v
      unfold lookupAttr setAttrSt
      simp [List.find?]
    · exact ih _ hrest

/-- `attr(key)` on a one-member collection returns the stored attribute
string. -/
theorem attr_get_single (st : DocSt) (id ty : Nat) (key s : String)
    (hs : lookupAttr st id key = some s) :
    (attrOp st [JSVal.node id ty] key none).2 = JSVal.str s := by
  unfold attrOp
  rw [if_neg (by simp)]
  show (st, match lookupAttr st id key with
            | some s' => JSVal.str s'
            | none => JSVal.nullv).2 = JSVal.str s
  rw [hs]

/-- C5: get-mode `attr(key)` yields a string only when the collection has
exactly one member (every multi-member or empty collection yields
`undefined`, and a string result forces length one), and set-mode
`attr(key, v)` writes every member, so re-wrapping any single member and
reading `attr(key)` returns exactly `v`. -/
theorem claim5_attr (st : DocSt) (self : List JSVal) (key v s : String) (id ty : Nat) :
    (self.length ≠ 1 → (attrOp st self key none).2 = JSVal.undef) ∧
    (lookupAttr st id key = some s → (attrOp st [JSVal.node id ty] key none).2 = JSVal.str s) ∧
    ((attrOp st self key none).2 = JSVal.str s → self.length = 1) ∧
    (JSVal.node id ty ∈ self →
      (attrOp (attrOp st self key (some v)).1 [JSVal.node id ty] key none).2 = JSVal.str v) := by
  refine ⟨?_, ?_, ?_, ?_⟩
  · intro h
    unfold attrOp
    rw [if_pos (bne_iff_ne.mpr h)]
  · exact attr_get_single st id ty key s
  · intro hstr
    by_contra hne
    unfold attrOp at hstr
    rw [if_pos (bne_iff_ne.mpr hne)] at hstr
    exact JSVal.noConfusion hstr
  · intro hmem
    have h1 : (attrOp st self key (some v)).1 = self.foldl (fun s' m =>
      match m with
      | JSVal.node i _ => setAttrSt s' i key v
      | _ => s') st := rfl
    rw [h1]
    exact attr_get_single _ id ty key v (lookupAttr_setfold self st id ty key v hmem)

/-- C5 witness: the empty collection yields `undefined`; after
`attr('k','v')` on a two-member collection, re-wrapping the second member
reads back `'v'`. -/
theorem claim5_attr_witness :
    (attrOp c1Doc [] "k" none).2 = JSVal.undef ∧
    (attrOp (attrOp c1Doc [JSVal.node 1 1, JSVal.node 2 1] "k" (some "v")).1
      [JSVal.node 2 1] "k" none).2 = JSVal.str "v" :=
  ⟨(claim5_attr c1Doc [] "k" "v" "s" 1 1).1 (by decide),
   (claim5_attr c1Doc [JSVal.node 1 1, JSVal.node 2 1] "k" "v" "s" 2 1).2.2.2
     (List.mem_cons_of_mem _ (List.mem_cons_self _ _))⟩

/-- C10: on a one-member collection whose element lacks the attribute,
`attr(key)` returns the platform null (from `getAttribute`), which is a
value distinct from the `undefined` returned whenever the collection's
size differs from one. -/
theorem claim10_attr_null_vs_undef (st : DocSt) (self : List JSVal) (key : String)
    (id ty : Nat) :
    (lookupAttr st id key = none → (attrOp st [JSVal.node id ty] key none).2 = JSVal.nullv) ∧
    (self.length ≠ 1 → (attrOp st self key none).2 = JSVal.undef) ∧
    JSVal.nullv ≠ JSVal.undef := by
  refine ⟨?_, ?_, fun hc => JSVal.noConfusion hc⟩
  · intro hn
    unfold attrOp
    rw [if_neg (by simp)]
    show (st, match lookupAttr st id key with
              | some s' => JSVal.str s'
              | none => JSVal.nullv).2 = JSVal.nullv
    rw [hn]
  · intro h
    unfold attrOp
    rw [if_pos (bne_iff_ne.mpr h)]

/-- C10 witness: element 1 of the scenario document has no attributes at
all, so `attr('missing')` is null there, while the empty collection gives
`undefined`. -/
theorem claim10_attr_null_vs_undef_witness :
    (attrOp c1Doc [JSVal.node 1 1] "missing" none).2 = JSVal.nullv ∧
    (attrOp c1Doc [] "missing" none).2 = JSVal.undef :=
  ⟨(claim10_attr_null_vs_undef c1Doc [] "missing" 1 1).1 rfl,
   (claim10_attr_null_vs_undef c1Doc [] "missing" 1 1).2.1 (by decide)⟩

/-- C6 amended witness: the whitespace-only string made of one space. -/
theorem claim6_amended_witness :
    parseSpaces " " = [""] ∧
    addClassOp c1Doc (JSVal.node 1 1 :: []) " " = Except.error JsErr.syntaxError ∧
    removeClassOp c1Doc (JSVal.node 1 1 :: []) " " = Except.error JsErr.syntaxError ∧
    addClassOp c1Doc [] " " = Except.ok (c1Doc, JSVal.coll []) ∧
    removeClassOp c1Doc [] " " = Except.ok (c1Doc, JSVal.coll []) :=
  claim6_amended " " c1Doc [] 1 1 rfl

/-- A fold whose step never touches `privData` leaves `privData` as is. -/
theorem foldl_privData_pres (f : DocSt → JSVal → DocSt)
    (hf : ∀ s m, (f s m).privData = s.privData) :
    ∀ (self : List JSVal) (st : DocSt), (self.foldl f st).privData = st.privData := by
  intro self
  induction self with
  | nil => intro st; rfl
  | cons m rest ih =>
    intro st
    rw [List.foldl_cons, ih]
    exact hf st m
/-- `detach()` only edits the node tree; the private data store is kept. -/
theorem detachSt_privData (st : DocSt) (self : List JSVal) :
    (detachSt st self).privData = st.privData := by
  unfold detachSt
  apply foldl_privData_pres
  intro s m
  cases m with
  | node id ty =>
    rcases hp : parentElement s id with _ | p
    · simp [hp]
    · simp [hp, removeChildSt]
  | str s' => rfl
  | num n => rfl
  | bool b => rfl
  | undef => rfl
  | nullv => rfl
  | fn f' => rfl
  | obj kvs => rfl
  | arr xs => rfl
  | coll xs => rfl
/-- The `element.remove()` pass only edits the node tree as well. -/
theorem elemRemoveFold_privData (st : DocSt) (self : List JSVal) :
    (self.foldl elemRemoveNative st).privData = st.privData := by
  apply foldl_privData_pres
  intro s m
  unfold elemRemoveNative
  cases m with
  | node id ty =>
    rcases hp : parentOf s id with _ | p
    · simp [hp]
    · simp [hp, removeChildSt]
  | str s' => rfl
  | num n => rfl
  | bool b => rfl
  | undef => rfl
  | nullv => rfl
  | fn f' => rfl
  | obj kvs => rfl
  | arr xs => rfl
  | coll xs => rfl
/-- `[cleanUp]()` on a one-member collection deletes exactly that node's
entries. -/
theorem cleanUpSt_single (st : DocSt) (id ty : Nat) :
    (cleanUpSt st [JSVal.node id ty]).privData
      = st.privData.filter (fun e => !(e.1 == id)) := rfl
/-- After deleting every entry of `id`, nothing is found for `id`. -/
theorem lookupPriv_filter (l : List (Nat × List (String × JSVal))) (id : Nat) :
    (l.filter (fun e => !(e.1 == id))).find? (fun e => e.1 == id) = none := by
  induction l with
  | nil => rfl
  | cons e rest ih =>
    rw [List.filter_cons]
    by_cases he : (e.1 == id) = true
    · rw [if_neg (by simp [he])]
      exact ih
    · have he' : (e.1 == id) = false := by
        simp only [Bool.not_eq_true] at he
        exact he
      rw [if_pos (by simp [he'])]
      simp only [List.find?, he']
      exact ih
/-- A node with no children has no descendant elements. -/
theorem descElems_leaf (F : Nat) (st : DocSt) (id : Nat) (h : childrenOf st id = []) :
    descElems (F+1) st id = [] := by
  show (childrenOf st id).foldl
      (fun acc c =>
        acc ++ (if typeOf st c == 1 then [c] else []) ++ descElems F st c) [] = []
  rw [h]
  rfl
/-- `find('*')` on a single childless member is the empty collection. -/
theorem findAllStar_leaf (st : DocSt) (id ty : Nat) (h : childrenOf st id = []) :
    findAllStar st [JSVal.node id ty] = [] := by
  show ([] : List JSVal) ++ (descElems (totalEdges st + 1) st id).map (fun c => JSVal.node c 1) = []
  rw [descElems_leaf (totalEdges st) st id h]
  rfl
/-- A data write is immediately visible through the store lookup. -/
theorem lookupPriv_setPrivKV (st : DocSt) (id : Nat) (k : String) (v : JSVal) :
    lookupPriv (setPrivKV st id k v) id = some ((k, v) :: privRecordOf st id) := by
  unfold lookupPriv setPrivKV
  simp [List.find?]
/-- `data(k)` on a fresh one-member collection of a node whose record was
just written returns the written value. -/
theorem dataGet_after_set (st : DocSt) (id ty : Nat) (k : String) (v : JSVal) :
    (dataOp (setPrivKV st id k v) [JSVal.node id ty] (some k) none).2 = v := by
  unfold dataOp
  rw [if_neg (by simp)]
  show (ensurePriv (setPrivKV st id k v) id,
        (((privRecordOf (ensurePriv (setPrivKV st id k v) id) id).find?
            (fun e => e.1 == k)).map (fun e => e.2)).getD JSVal.undef).2 = v
  have h1 : ensurePriv (setPrivKV st id k v) id = setPrivKV st id k v := by
    unfold ensurePriv
    rw [lookupPriv_setPrivKV]
    rfl
  rw [h1]
  have h2 : privRecordOf (setPrivKV st id k v) id = (k, v) :: privRecordOf st id := by
    unfold privRecordOf
    rw [lookupPriv_setPrivKV]
    rfl
  rw [h2]
  simp [List.find?]
/-- `data(k)` on a node with no record lazily creates an empty record and
returns `undefined` for the key. -/
theorem dataGet_no_record (st : DocSt) (id ty : Nat) (k : String)
    (h : lookupPriv st id = none) :
    (dataOp st [JSVal.node id ty] (some k) none).2 = JSVal.undef := by
  unfold dataOp
  rw [if_neg (by simp)]
  show (ensurePriv st id,
        (((privRecordOf (ensurePriv st id) id).find?
            (fun e => e.1 == k)).map (fun e => e.2)).getD JSVal.undef).2 = JSVal.undef
  have h1 : ensurePriv st id = { st with privData := (id, []) :: st.privData } := by
    unfold ensurePriv
    rw [h]
    rfl
  rw [h1]
  have h2 : privRecordOf { st with privData := (id, []) :: st.privData } id = [] := by
    unfold privRecordOf lookupPriv
    simp [List.find?]
  rw [h2]
  rfl
/-- `remove()` on a one-member collection of a childless element leaves
the private data store with exactly that node's entries deleted. -/
theorem removeOp_privData_leaf (st : DocSt) (id ty : Nat)
    (h : findAllStar st [JSVal.node id ty] = []) :
    (removeOp 2 st [JSVal.node id ty]).1.privData
      = st.privData.filter (fun e => !(e.1 == id)) := by
  show ([JSVal.node id ty].foldl elemRemoveNative
      (cleanUpSt (detachSt (if (findAllStar st [JSVal.node id ty]).length != 0
          then (removeOp 1 st (findAllStar st [JSVal.node id ty])).1 else st)
        [JSVal.node id ty]) [JSVal.node id ty])).privData
      = st.privData.filter (fun e => !(e.1 == id))
  rw [h]
  rw [elemRemoveFold_privData, cleanUpSt_single, detachSt_privData]
  simp
/-- C3: private data is keyed by node identity and persists across
collections: after `data('x', 123)` on a one-member collection, `data('x')`
on a freshly built collection wrapping the same node returns 123; and
after `remove()` on that node's collection, re-wrapping the same node and
calling `data('x')` returns `undefined`, because the record was purged. -/
theorem claim3_data_identity (st : DocSt) (id ty : Nat)
    (hleaf : childrenOf st id = []) :
    (dataOp (dataOp st [JSVal.node id ty] (some "x") (some (JSVal.num 123))).1
       [JSVal.node id ty] (some "x") none).2 = JSVal.num 123 ∧
    (dataOp (removeOp 2 (dataOp st [JSVal.node id ty] (some "x") (some (JSVal.num 123))).1
       [JSVal.node id ty]).1 [JSVal.node id ty] (some "x") none).2 = JSVal.undef := by
  have hset : (dataOp st [JSVal.node id ty] (some "x") (some (JSVal.num 123))).1
      = setPrivKV st id "x" (JSVal.num 123) := rfl
  constructor
  · rw [hset]
    exact dataGet_after_set st id ty "x" (JSVal.num 123)
  · rw [hset]
    apply dataGet_no_record
    unfold lookupPriv
    rw [removeOp_privData_leaf (setPrivKV st id "x" (JSVal.num 123)) id ty
      (findAllStar_leaf (setPrivKV st id "x" (JSVal.num 123)) id ty hleaf)]
    rw [lookupPriv_filter ((setPrivKV st id "x" (JSVal.num 123)).privData) id]
    rfl
/-- C3 witness: the childless element 3 of the scenario document. -/
theorem claim3_data_identity_witness :
    (dataOp (dataOp c1Doc [JSVal.node 3 1] (some "x") (some (JSVal.num 123))).1
       [JSVal.node 3 1] (some "x") none).2 = JSVal.num 123 ∧
    (dataOp (removeOp 2 (dataOp c1Doc [JSVal.node 3 1] (some "x") (some (JSVal.num 123))).1
       [JSVal.node 3 1]).1 [JSVal.node 3 1] (some "x") none).2 = JSVal.undef :=
  claim3_data_identity c1Doc 3 1 rfl

/-- A monadic step followed by `return (st, this)` can only succeed with
the collection as its result value. -/
theorem bind_pure_coll (E : Except JsErr DocSt) (self : List JSVal) (stA : DocSt) (rA : JSVal)
    (h : (E >>= fun s => pure (s, JSVal.coll self)) = Except.ok (stA, rA)) :
    rA = JSVal.coll self := by
  cases E with
  | error e => simp [Bind.bind, Except.bind] at h
  | ok s =>
    simp [Bind.bind, Except.bind, pure, Except.pure] at h
    exact h.2.symm

/-- `css` returns `this` on both of its branches. -/
theorem cssOp_snd (st : DocSt) (self : List JSVal) (rule : JSVal) (value : Option JSVal) :
    (cssOp st self rule value).2 = JSVal.coll self := by
  rw [cssOp.eq_def]
  split <;> rfl

/-- `on` returns `this` on every path, including the silent no-ops. -/
theorem onOp_snd (st : DocSt) (self : List JSVal) (events : String) (cb : JSVal) :
    (onOp st self events cb).2 = JSVal.coll self := by
  cases cb with
  | fn f =>
    unfold onOp
    split
    all_goals split <;> rfl
  | node a b => rfl
  | str s => rfl
  | num n => rfl
  | bool b => rfl
  | undef => rfl
  | nullv => rfl
  | obj kvs => rfl
  | arr xs => rfl
  | coll xs => rfl

/-- `off` returns `this` on every path, including the silent no-ops. -/
theorem offOp_snd (st : DocSt) (self : List JSVal) (events : String) (cb : JSVal) :
    (offOp st self events cb).2 = JSVal.coll self := by
  cases cb with
  | fn f =>
    unfold offOp
    split
    all_goals split <;> rfl
  | node a b => rfl
  | str s => rfl
  | num n => rfl
  | bool b => rfl
  | undef => rfl
  | nullv => rfl
  | obj kvs => rfl
  | arr xs => rfl
  | coll xs => rfl

/-- When `append` does not throw, it returns `this`. -/
theorem appendOp_ok_snd (fuel : Nat) (st stC : DocSt) (self : List JSVal) (html : JSVal)
    (parsed : List JSVal) (rC : JSVal)
    (hok : appendOp fuel st self html parsed = Except.ok (stC, rC)) :
    rC = JSVal.coll self := by
  unfold appendOp at hok
  by_cases hs : html.isString = true
  · simp [hs] at hok
    exact hok.2.symm
  · have hg : instanceofDOM (jsNot html) = false := rfl
    simp [hs, hg] at hok

/-- C9 counterexample: set-mode `attr` falls off the end of the method
with no return statement, so it evaluates to `undefined`, which is not
the collection — chaining after `attr('k','v')` is impossible. -/
theorem claim9_counterexample :
    (attrOp c1Doc [JSVal.node 1 1] "k" (some "v")).2 = JSVal.undef ∧
    JSVal.undef ≠ JSVal.coll [JSVal.node 1 1] :=
  ⟨rfl, fun hc => JSVal.noConfusion hc⟩

/-- C9 as amended: every mutation method except `attr` returns the
collection (`addClass`, `removeClass`, `css`, set-mode `data`, `on`,
`off`, `detach`, `append` when it returns at all, and `remove`, which
returns the collection truncated to length zero); set-mode `attr`
returns `undefined`. -/
theorem claim9_amended (st stA stB stC : DocSt) (self : List JSVal)
    (cls cls2 events evs2 key valueS : String) (rule cb cb2 v : JSVal) (k : Option String)
    (fuel : Nat) (html : JSVal) (parsed : List JSVal) (rA rB rC : JSVal) :
    (addClassOp st self cls = Except.ok (stA, rA) → rA = JSVal.coll self) ∧
    (removeClassOp st self cls2 = Except.ok (stB, rB) → rB = JSVal.coll self) ∧
    (cssOp st self rule (some v)).2 = JSVal.coll self ∧
    (dataOp st self k (some v)).2 = JSVal.coll self ∧
    (onOp st self events cb).2 = JSVal.coll self ∧
    (offOp st self evs2 cb2).2 = JSVal.coll self ∧
    (detachOp st self).2 = JSVal.coll self ∧
    (appendOp fuel st self html parsed = Except.ok (stC, rC) → rC = JSVal.coll self) ∧
    (removeOp (fuel+1) st self).2 = JSVal.coll [] ∧
    (attrOp st self key (some valueS)).2 = JSVal.undef := by
  refine ⟨?_, ?_, cssOp_snd st self rule (some v), rfl, onOp_snd st self events cb,
    offOp_snd st self evs2 cb2, rfl, ?_, rfl, rfl⟩
  · intro hok
    exact bind_pure_coll _ self stA rA hok
  · intro hok
    exact bind_pure_coll _ self stB rB hok
  · exact appendOp_ok_snd fuel st stC self html parsed rC

/-- C9 amended witness: css, remove and attr at concrete inputs. -/
theorem claim9_amended_witness :
    (cssOp c1Doc [JSVal.node 1 1] (JSVal.str "color") (some (JSVal.str "red"))).2
      = JSVal.coll [JSVal.node 1 1] ∧
    (removeOp 1 c1Doc [JSVal.node 1 1]).2 = JSVal.coll [] ∧
    (attrOp c1Doc [JSVal.node 1 1] "k" (some "v")).2 = JSVal.undef := by
  have h := claim9_amended c1Doc c1Doc c1Doc c1Doc [JSVal.node 1 1] "a" "b" "ev" "ev2"
    "k" "v" (JSVal.str "color") JSVal.undef JSVal.undef (JSVal.str "red") none 0
    JSVal.undef [] JSVal.undef JSVal.undef JSVal.undef
  exact ⟨h.2.2.1, h.2.2.2.2.2.2.2.2.1, h.2.2.2.2.2.2.2.2.2⟩

end ES6DOM
